import Mathlib

/-!
# System resource monitor: detector and stat-record parsing

A shallow embedding of `src/monitor.cpp`.

* `ProcessInfo`, `ResourceMonitor` and `detectSuspiciousActivity` follow the
  C++ declarations.  `size_t` is the 64-bit unsigned type, embedded in `Nat`
  with explicit reduction modulo `2^64` where the source subtracts or adds.
  `double` values that are only stored and compared (`cpuUsage`,
  `cpuThreshold`) are kept in an arbitrary type `D` with a decidable `<`, so
  every statement holds for IEEE doubles as well as for any exact number type.
* The text written to `std::cout` is represented by the list of `[ALERT]`
  blocks, one `Alert` per block, and the concatenated `reason` string by the
  list of its fragments.  The header, the time stamp and the closing line
  `No suspicious activity detected.` (printed exactly when that list is empty)
  are left out.
* The stat-record step of the Linux `getProcessList` works on `List Char`
  with an explicit model of `std::string::find`, `std::string::substr` and of
  the `std::istringstream` operations it uses.
-/

namespace Monitor

/-! ## Data model -/

/-- The record `struct ProcessInfo`; `memoryUsage` is in KB. -/
structure ProcessInfo (D : Type) where
  pid : Int
  name : String
  cpuUsage : D
  memoryUsage : Nat
  timestamp : Int
deriving DecidableEq

/-- One fragment appended to the `reason` string of the detector. -/
inductive Reason (D : Type) where
  | highCPU (cpu : D)
  | highMemory (memoryMB : Nat)
  | rapidGrowth (memGrowth : ℚ)
deriving DecidableEq

/-- One `[ALERT]` block of the report: pid, name, reason, CPU and memory in MB. -/
structure Alert (D : Type) where
  pid : Int
  name : String
  reason : List (Reason D)
  cpuUsage : D
  memoryMB : Nat
deriving DecidableEq

/-- The member `std::map<int, ProcessInfo> processHistory`, as a lookup function. -/
abbrev History (D : Type) := Int → Option (ProcessInfo D)

/-- The private state of `class ResourceMonitor`; `memoryThreshold` is in MB. -/
structure ResourceMonitor (D : Type) where
  processHistory : History D
  cpuThreshold : D
  memoryThreshold : Nat

/-- The number of values of `size_t`. -/
def sizeModulus : Nat := 18446744073709551616

/-- Subtraction of two `size_t` values, `a - b`, which wraps around modulo `2^64`. -/
def sizeSub (a b : Nat) : Nat :=
  (a % sizeModulus + (sizeModulus - b % sizeModulus)) % sizeModulus

/-- The assignment `processHistory[proc.pid] = proc`. -/
def historyPut {D : Type} (h : History D) (proc : ProcessInfo D) : History D :=
  fun pid => if pid = proc.pid then some proc else h pid

/-- The number of low bits that a non-negative integer loses when it is written with
53 significant bits: the number of halvings that bring it below `2^53`. -/
def doubleShift : Nat → Nat → Nat
  | 0, _ => 0
  | fuel + 1, n => if n < 2 ^ 53 then 0 else doubleShift fuel (n / 2) + 1

/-- The conversion of a non-negative integer to `double`: the nearest number with 53
significant bits, a tie going to the even one.  The result is again an integer. -/
def roundToDouble (n : Nat) : Nat :=
  if n < 2 ^ 53 then n
  else
    let e := doubleShift n n
    let q := n / 2 ^ e
    let r := n % 2 ^ e
    let half := 2 ^ (e - 1)
    if r > half ∨ (r = half ∧ q % 2 = 1) then (q + 1) * 2 ^ e else q * 2 ^ e

/-- The value `memGrowth = (proc.memoryUsage - prev.memoryUsage) / 1024.0`: the `size_t`
difference, converted to `double` and divided by 1024.  The division of a `double` by
the power of two `1024.0` is exact, so the value is a rational number. -/
def memGrowth {D : Type} (proc prev : ProcessInfo D) : ℚ :=
  (roundToDouble (sizeSub proc.memoryUsage prev.memoryUsage) : ℚ) / 1024

/-! ## The detector -/

section Detector

variable {D : Type} [LT D] [DecidableRel (fun (a b : D) => a < b)]

/-- The CPU check of the loop body (lines 170-174): updates `suspicious` and `reason`. -/
def checkCpu (m : ResourceMonitor D) (proc : ProcessInfo D)
    (st : Bool × List (Reason D)) : Bool × List (Reason D) :=
  if proc.cpuUsage > m.cpuThreshold then (true, st.2 ++ [Reason.highCPU proc.cpuUsage]) else st

/-- The memory check of the loop body (lines 176-181). -/
def checkMemory (m : ResourceMonitor D) (proc : ProcessInfo D)
    (st : Bool × List (Reason D)) : Bool × List (Reason D) :=
  let memoryMB := proc.memoryUsage / 1024
  if memoryMB > m.memoryThreshold then (true, st.2 ++ [Reason.highMemory memoryMB]) else st

/-- The growth check of the loop body (lines 183-192). -/
def checkGrowth (m : ResourceMonitor D) (proc : ProcessInfo D)
    (st : Bool × List (Reason D)) : Bool × List (Reason D) :=
  match m.processHistory proc.pid with
  | some prev =>
    if memGrowth proc prev > 100 then (true, st.2 ++ [Reason.rapidGrowth (memGrowth proc prev)])
    else st
  | none => st

/-- The values of `suspicious` and `reason` when the loop body reaches line 194. -/
def classify (m : ResourceMonitor D) (proc : ProcessInfo D) : Bool × List (Reason D) :=
  checkGrowth m proc (checkMemory m proc (checkCpu m proc (false, [])))

/-- The `[ALERT]` block printed for `proc` with the given reason (lines 196-200). -/
def mkAlert (proc : ProcessInfo D) (reason : List (Reason D)) : Alert D :=
  { pid := proc.pid, name := proc.name, reason := reason,
    cpuUsage := proc.cpuUsage, memoryMB := proc.memoryUsage / 1024 }

/-- One iteration of the loop of `detectSuspiciousActivity` (lines 166-205): the alert
printed for `proc`, if any, and the monitor with the history updated. -/
def detectStep (m : ResourceMonitor D) (proc : ProcessInfo D) :
    ResourceMonitor D × Option (Alert D) :=
  let st := classify m proc
  let out := if st.1 then some (mkAlert proc st.2) else none
  ({ m with processHistory := historyPut m.processHistory proc }, out)

/-- The method `detectSuspiciousActivity`: the monitor after the call and the alerts
printed, in the order they are printed. -/
def detectSuspiciousActivity (m : ResourceMonitor D) :
    List (ProcessInfo D) → ResourceMonitor D × List (Alert D)
  | [] => (m, [])
  | proc :: rest =>
    let r := detectStep m proc
    let r' := detectSuspiciousActivity r.1 rest
    (r'.1, r.2.toList ++ r'.2)

/-- The loop of `monitor`, run on the snapshots that the successive calls of
`getProcessList` return: the monitor after the last scan and the alerts of each scan. -/
def monitor (m : ResourceMonitor D) :
    List (List (ProcessInfo D)) → ResourceMonitor D × List (List (Alert D))
  | [] => (m, [])
  | processes :: later =>
    let r := detectSuspiciousActivity m processes
    let r' := monitor r.1 later
    (r'.1, r.2 :: r'.2)

end Detector

/-- The monitor built by `ResourceMonitor(cpuThresh, memThresh)`: empty history. -/
def ResourceMonitor.new {D : Type} (cpuThresh : D) (memThresh : Nat) : ResourceMonitor D :=
  { processHistory := fun _ => none, cpuThreshold := cpuThresh, memoryThreshold := memThresh }

/-! ## Rules, as predicates on one record -/

section Rules

variable {D : Type} [LT D] [DecidableRel (fun (a b : D) => a < b)]

/-- The CPU breach rule: the measured usage is above the threshold. -/
def cpuBreach (m : ResourceMonitor D) (proc : ProcessInfo D) : Prop :=
  proc.cpuUsage > m.cpuThreshold

/-- The memory breach rule: the whole number of MB is above the threshold. -/
def memoryBreach (m : ResourceMonitor D) (proc : ProcessInfo D) : Prop :=
  proc.memoryUsage / 1024 > m.memoryThreshold

/-- The growth test of the detector against a history (lines 184-188): a prior record
exists and the value `memGrowth` computed for it is above 100. -/
def growthTest (h : History D) (proc : ProcessInfo D) : Prop :=
  ∃ prev, h proc.pid = some prev ∧ memGrowth proc prev > 100

instance (m : ResourceMonitor D) (proc : ProcessInfo D) : Decidable (cpuBreach m proc) := by
  unfold cpuBreach; infer_instance

instance (m : ResourceMonitor D) (proc : ProcessInfo D) : Decidable (memoryBreach m proc) := by
  unfold memoryBreach; infer_instance

instance (h : History D) (proc : ProcessInfo D) : Decidable (growthTest h proc) :=
  match hh : h proc.pid with
  | none => isFalse (by rintro ⟨prev, hp, _⟩; rw [hh] at hp; cases hp)
  | some prev =>
    if hg : memGrowth proc prev > 100 then isTrue ⟨prev, hh, hg⟩
    else isFalse (by rintro ⟨q, hq, hgq⟩; rw [hh] at hq; cases hq; exact hg hgq)

/-- The history after the records of `pre` have been written into `h`, one after the
other. -/
def historyAfter (h : History D) (pre : List (ProcessInfo D)) : History D :=
  pre.foldl historyPut h

/-- Whether a reason fragment is the rapid-growth one. -/
def Reason.isGrowth : Reason D → Bool
  | Reason.rapidGrowth _ => true
  | _ => false

/-- An alert with its rapid-growth reasons removed; no alert when nothing else is left. -/
def dropGrowth (a : Alert D) : Option (Alert D) :=
  let rs := a.reason.filter (fun r => !r.isGrowth)
  if rs.isEmpty then none else some { a with reason := rs }

/-- Whether the detector takes at least one of its three tests for a record, the growth
test being made against the given history. -/
def tested (m : ResourceMonitor D) (h : History D) (proc : ProcessInfo D) : Bool :=
  decide (cpuBreach m proc ∨ memoryBreach m proc ∨ growthTest h proc)

/-- The growth of a record over a prior one, in MB, as the rule states it:
`(current.memoryUsageKB - prior.memoryUsageKB) / 1024`, negative when memory shrank. -/
def growthMB (proc prev : ProcessInfo D) : ℚ :=
  ((proc.memoryUsage : ℚ) - (prev.memoryUsage : ℚ)) / 1024

/-- The growth breach rule against a history: a prior record exists for the pid and the
growth over it is above 100 MB. -/
def growthBreach (h : History D) (proc : ProcessInfo D) : Prop :=
  ∃ prev, h proc.pid = some prev ∧ growthMB proc prev > 100

instance (h : History D) (proc : ProcessInfo D) : Decidable (growthBreach h proc) :=
  match hh : h proc.pid with
  | none => isFalse (by rintro ⟨prev, hp, _⟩; rw [hh] at hp; cases hp)
  | some prev =>
    if hg : growthMB proc prev > 100 then isTrue ⟨prev, hh, hg⟩
    else isFalse (by rintro ⟨q, hq, hgq⟩; rw [hh] at hq; cases hq; exact hg hgq)

/-- Whether at least one of the three rules fires for a record: the CPU breach, the
memory breach, or the growth breach against the given history. -/
def fires (m : ResourceMonitor D) (h : History D) (proc : ProcessInfo D) : Bool :=
  decide (cpuBreach m proc ∨ memoryBreach m proc ∨ growthBreach h proc)

/-- The four values that an alert shows besides its reason. -/
def Alert.shown (a : Alert D) : Int × String × D × Nat :=
  (a.pid, a.name, a.cpuUsage, a.memoryMB)

/-- The four values that an alert for a record has to show. -/
def ProcessInfo.shown (p : ProcessInfo D) : Int × String × D × Nat :=
  (p.pid, p.name, p.cpuUsage, p.memoryUsage / 1024)

/-- The records of a snapshot, each paired with the records before it. -/
def withPrefixes (S : List (ProcessInfo D)) : List (List (ProcessInfo D) × ProcessInfo D) :=
  S.inits.zip S

/-- The output of the loop body for a record when only the two threshold checks are
taken into account. -/
def thresholdAlert (m : ResourceMonitor D) (p : ProcessInfo D) : List (Alert D) :=
  if (checkMemory m p (checkCpu m p (false, []))).1
  then [mkAlert p (checkMemory m p (checkCpu m p (false, []))).2] else []

end Rules

/-! ## The stat record step of the Linux `getProcessList`

Lines 122-136 of the source, from the line read by `std::getline` to the assignment of
`info.cpuUsage`.  Strings are lists of characters. -/

/-- The value `std::string::npos`, the largest `size_t`. -/
def npos : Nat := sizeModulus - 1

/-- The exception that `std::string::substr` throws. -/
inductive Exception where
  | outOfRange
deriving DecidableEq

deriving instance DecidableEq for Except

/-- Search of `std::string::find` from a given index. -/
def findFrom (c : Char) : List Char → Nat → Nat
  | [], _ => npos
  | x :: xs, i => if x = c then i else findFrom c xs (i + 1)

/-- The call `line.find(c)`: the index of the first `c`, or `npos`. -/
def find (line : List Char) (c : Char) : Nat :=
  findFrom c line 0

/-- The call `s.substr(pos, n)`: throws when `pos > s.size()`, and otherwise gives the
characters from `pos` on, at most `n` of them. -/
def substr (s : List Char) (pos n : Nat) : Except Exception (List Char) :=
  if pos > s.length then Except.error Exception.outOfRange
  else Except.ok ((s.drop pos).take n)

/-- The state of a `std::istringstream`: the characters not yet read and two of the
state flags. -/
structure IStringStream where
  buf : List Char
  eofbit : Bool
  failbit : Bool
deriving DecidableEq

/-- The call `iss.good()`. -/
def IStringStream.good (s : IStringStream) : Bool :=
  !s.eofbit && !s.failbit

/-- The extraction loop of `ignore(n, delim)`: the characters left and whether the end
of the input was met. -/
def ignoreChars (delim : Char) : Nat → List Char → List Char × Bool
  | 0, cs => (cs, false)
  | _ + 1, [] => ([], true)
  | n + 1, c :: cs => if c = delim then (cs, false) else ignoreChars delim n cs

/-- The call `iss.ignore(n, delim)`: discards characters up to and including the first
`delim`, at most `n` of them; on a stream that is not good it only sets `failbit`. -/
def IStringStream.ignore (s : IStringStream) (n : Nat) (delim : Char) : IStringStream :=
  if s.good then
    { buf := (ignoreChars delim n s.buf).1, eofbit := (ignoreChars delim n s.buf).2,
      failbit := false }
  else { s with failbit := true }

/-- The whitespace of the classic locale. -/
def isSpace (c : Char) : Bool :=
  c = ' ' || c = '\t' || c = '\n' || c = '\r' || c.toNat = 11 || c.toNat = 12

/-- The value of a string of decimal digits. -/
def decimalValue (ds : List Char) : Nat :=
  ds.foldl (fun acc d => 10 * acc + (d.toNat - 48)) 0

/-- The largest `long`. -/
def LONG_MAX : Int := 9223372036854775807

/-- The smallest `long`. -/
def LONG_MIN : Int := -9223372036854775808

/-- The call `iss >> v` for a `long v`.  On a stream that is not good, or that ends
before a non-blank character, `failbit` is set and `v` keeps its value.  Otherwise an
optional sign and the decimal digits that follow are read: without a digit `v` becomes 0
and `failbit` is set; a value outside the range of `long` is stored as the nearest bound
and `failbit` is set. -/
def IStringStream.extractLong (s : IStringStream) (v : Int) : IStringStream × Int :=
  if s.good then
    match s.buf.dropWhile isSpace with
    | [] => ({ buf := [], eofbit := true, failbit := true }, v)
    | c :: rest =>
      let body := if c = '-' ∨ c = '+' then rest else c :: rest
      let ds := body.takeWhile Char.isDigit
      let left := body.dropWhile Char.isDigit
      let value : Int := if c = '-' then -(decimalValue ds : Int) else (decimalValue ds : Int)
      if ds.isEmpty then ({ buf := left, eofbit := left.isEmpty, failbit := true }, 0)
      else if value > LONG_MAX then
        ({ buf := left, eofbit := left.isEmpty, failbit := true }, LONG_MAX)
      else if value < LONG_MIN then
        ({ buf := left, eofbit := left.isEmpty, failbit := true }, LONG_MIN)
      else ({ buf := left, eofbit := left.isEmpty, failbit := false }, value)
  else ({ s with failbit := true }, v)

/-- The loop `for (int i = 0; i < 11; ++i) iss.ignore(256, ' ')`, as `k` iterations. -/
def ignoreFields : Nat → IStringStream → IStringStream
  | 0, s => s
  | k + 1, s => ignoreFields k (s.ignore 256 ' ')

/-- The name extraction (lines 125-129): the name after it, `name0` being the name
before, or the exception thrown by `substr`. -/
def statName (name0 line : List Char) : Except Exception (List Char) :=
  let start := (find line '(' + 1) % sizeModulus
  let endPos := find line ')'
  if start ≠ npos ∧ endPos ≠ npos then substr line start (sizeSub endPos start)
  else Except.ok name0

/-- The result of an operation on `long` values: the exact result brought back into the
range of `long` modulo `2^64`.  Signed overflow, which C leaves undefined, is taken as
this two's-complement wrap. -/
def wrapLong (x : Int) : Int :=
  (x + 9223372036854775808) % 18446744073709551616 - 9223372036854775808

/-- The conversion of a `long` to `double`; the result is again an integer. -/
def longToDouble (x : Int) : Int :=
  if x < 0 then -(roundToDouble x.natAbs : Int) else (roundToDouble x.natAbs : Int)

/-- The CPU time extraction (lines 132-136) on the string given to the
`std::istringstream`: the value assigned to `cpuUsage`, that is the `long` quotient
`(utime + stime) / sysconf(_SC_CLK_TCK)`, which truncates, converted to `double`.
`clkTck` is the value of `sysconf(_SC_CLK_TCK)`, taken to be non-zero; `utime0` and
`stime0` stand for the indeterminate values of the uninitialised locals `utime` and
`stime`. -/
def statCpu (clkTck utime0 stime0 : Int) (rest : List Char) : Int :=
  let iss := ignoreFields 11 { buf := rest, eofbit := false, failbit := false }
  let r1 := iss.extractLong utime0
  let r2 := r1.1.extractLong stime0
  longToDouble (wrapLong (Int.tdiv (wrapLong (r1.2 + r2.2)) clkTck))

/-- The stat record step (lines 122-136) on the line read from the stat file: the
exception thrown, or the name and the value assigned to `cpuUsage`.  `name0` is the name
before the step (empty in `getProcessList`). -/
def statStep (clkTck utime0 stime0 : Int) (name0 line : List Char) :
    Except Exception (List Char × Int) :=
  match statName name0 line with
  | Except.error e => Except.error e
  | Except.ok name =>
    match substr line ((find line ')' + 2) % sizeModulus) npos with
    | Except.error e => Except.error e
    | Except.ok rest => Except.ok (name, statCpu clkTck utime0 stime0 rest)

/-- The fields `fs`, each followed by one blank, in front of `tl`. -/
def joinFields (fs : List (List Char)) (tl : List Char) : List Char :=
  fs.foldr (fun f acc => f ++ ' ' :: acc) tl

/-- The text strictly between the first `(` and the last `)` of a line. -/
def commField (line : List Char) : List Char :=
  ((((line.dropWhile (fun c => c ≠ '(')).drop 1).reverse.dropWhile
    (fun c => c ≠ ')')).drop 1).reverse

/-- The space-separated fields that follow the last `)` of a line and the blank after
it: the fields 3, 4, ... of a stat record. -/
def fieldsAfterName (line : List Char) : List (List Char) :=
  (((line.reverse.takeWhile (fun c => c ≠ ')')).reverse).drop 1).splitOn ' '

/-- The number written in a field: an optional `-` and decimal digits. -/
def fieldValue (field : List Char) : Int :=
  match field with
  | '-' :: ds => -(decimalValue ds : Int)
  | ds => (decimalValue ds : Int)

/-- The value that a stat record gives for `cpuUsage`: the sum of the 12th and 13th
fields after the name, divided by the number of clock ticks per second. -/
def cpuSeconds (clkTck : Int) (line : List Char) : ℚ :=
  ((fieldValue ((fieldsAfterName line).getD 11 []) +
    fieldValue ((fieldsAfterName line).getD 12 []) : Int) : ℚ) / (clkTck : ℚ)

/-- A stat record of a process whose name is `a) b`, with `utime = 300` and
`stime = 200`. -/
def statLineParen : List Char :=
  "7 (a) b) S 1 7 7 0 -1 4194304 120 0 5 0 300 200 0 0 20 0 1 0 100 1000000 50".data

/-- A stat record of a process whose name is `my proc`, with `utime = 300` and
`stime = 200`. -/
def statLinePlain : List Char :=
  "7 (my proc) S 1 7 7 0 -1 4194304 120 0 5 0 300 200 0 0 20 0 1 0 100 1000000 50".data

/-- A stat record of a process whose name is `my proc`, with `utime = 100` and
`stime = 50`. -/
def statLineTicks : List Char :=
  "7 (my proc) S 1 7 7 0 -1 4194304 120 0 5 0 100 50 0 0 20 0 1 0 100 1000000 50".data


/-! ## Lemmas on the loop body -/

section StepLemmas

variable {D : Type} [LT D] [DecidableRel (fun (a b : D) => a < b)]

theorem classify_fst_iff (m : ResourceMonitor D) (proc : ProcessInfo D) :
    (classify m proc).1 = true ↔
      cpuBreach m proc ∨ memoryBreach m proc ∨ growthTest m.processHistory proc := by
  unfold classify checkGrowth checkMemory checkCpu cpuBreach memoryBreach growthTest
  cases hh : m.processHistory proc.pid with
  | none => simp only []; split_ifs <;> simp_all
  | some prev => simp only []; split_ifs <;> simp_all

theorem highCPU_mem_classify (m : ResourceMonitor D) (proc : ProcessInfo D)
    (h : cpuBreach m proc) : Reason.highCPU proc.cpuUsage ∈ (classify m proc).2 := by
  unfold cpuBreach at h
  unfold classify checkGrowth checkMemory checkCpu
  cases hh : m.processHistory proc.pid with
  | none => simp only []; split_ifs <;> simp_all
  | some prev => simp only []; split_ifs <;> simp_all

theorem highMemory_mem_classify (m : ResourceMonitor D) (proc : ProcessInfo D)
    (h : memoryBreach m proc) :
    Reason.highMemory (proc.memoryUsage / 1024) ∈ (classify m proc).2 := by
  unfold memoryBreach at h
  unfold classify checkGrowth checkMemory checkCpu
  cases hh : m.processHistory proc.pid with
  | none => simp only []; split_ifs <;> simp_all
  | some prev => simp only []; split_ifs <;> simp_all

theorem rapidGrowth_mem_classify_iff (m : ResourceMonitor D) (proc : ProcessInfo D) (g : ℚ) :
    Reason.rapidGrowth g ∈ (classify m proc).2 ↔
      ∃ prev, m.processHistory proc.pid = some prev ∧ memGrowth proc prev > 100 ∧
        g = memGrowth proc prev := by
  unfold classify checkGrowth checkMemory checkCpu
  cases hh : m.processHistory proc.pid with
  | none => simp only []; split_ifs <;> simp_all
  | some prev => simp only []; split_ifs <;> simp_all

theorem detectStep_fst (m : ResourceMonitor D) (proc : ProcessInfo D) :
    (detectStep m proc).1 = { m with processHistory := historyPut m.processHistory proc } := rfl

theorem detect_append (m : ResourceMonitor D) (A B : List (ProcessInfo D)) :
    detectSuspiciousActivity m (A ++ B) =
      ((detectSuspiciousActivity (detectSuspiciousActivity m A).1 B).1,
        (detectSuspiciousActivity m A).2 ++
          (detectSuspiciousActivity (detectSuspiciousActivity m A).1 B).2) := by
  induction A generalizing m with
  | nil => simp [detectSuspiciousActivity]
  | cons p A ih => simp [detectSuspiciousActivity, ih]

theorem detect_cons (m : ResourceMonitor D) (proc : ProcessInfo D)
    (rest : List (ProcessInfo D)) :
    detectSuspiciousActivity m (proc :: rest) =
      ((detectSuspiciousActivity (detectStep m proc).1 rest).1,
        (detectStep m proc).2.toList ++ (detectSuspiciousActivity (detectStep m proc).1 rest).2) :=
  rfl

theorem detect_thresholds (m : ResourceMonitor D) (S : List (ProcessInfo D)) :
    (detectSuspiciousActivity m S).1.cpuThreshold = m.cpuThreshold ∧
      (detectSuspiciousActivity m S).1.memoryThreshold = m.memoryThreshold := by
  induction S generalizing m with
  | nil => simp [detectSuspiciousActivity]
  | cons p S ih =>
    rw [detect_cons]
    have := ih (detectStep m p).1
    simpa [detectStep_fst] using this

theorem detect_history (m : ResourceMonitor D) (S : List (ProcessInfo D)) :
    (detectSuspiciousActivity m S).1.processHistory = historyAfter m.processHistory S := by
  induction S generalizing m with
  | nil => simp [detectSuspiciousActivity, historyAfter]
  | cons p S ih =>
    rw [detect_cons]
    have := ih (detectStep m p).1
    simpa [detectStep_fst, historyAfter] using this

end StepLemmas

/-! ## Threshold rules -/

section ThresholdRules

variable {D : Type} [LT D] [DecidableRel (fun (a b : D) => a < b)]

/-- The alerts of a snapshot split at one of its records: those of the records before it,
the output of the loop body for the record itself, those of the records after it. -/
theorem detect_split (m : ResourceMonitor D) (pre post : List (ProcessInfo D))
    (P : ProcessInfo D) :
    (detectSuspiciousActivity m (pre ++ P :: post)).2 =
      (detectSuspiciousActivity m pre).2 ++
        ((detectStep (detectSuspiciousActivity m pre).1 P).2.toList ++
          (detectSuspiciousActivity (detectSuspiciousActivity m (pre ++ [P])).1 post).2) := by
  rw [detect_append m pre (P :: post), detect_append m pre [P]]
  simp [detect_cons, detectSuspiciousActivity]

theorem detectStep_snd_of_fires (m : ResourceMonitor D) (P : ProcessInfo D)
    (h : (classify m P).1 = true) :
    (detectStep m P).2 = some (mkAlert P (classify m P).2) := by
  simp [detectStep, h]

theorem detectStep_snd_of_not_fires (m : ResourceMonitor D) (P : ProcessInfo D)
    (h : (classify m P).1 = false) : (detectStep m P).2 = none := by
  simp [detectStep, h]

/-- C1.  CPU breach rule: whatever the thresholds, the history and the snapshot, a record
`P` of the snapshot whose `cpuUsage` is above `cpuThreshold` gets an alert, printed
between the alerts of the records before it and those of the records after it, that
carries the pid, name, CPU value and MB of `P` and whose reason contains the High CPU
fragment with the measured `cpuUsage`.  Nothing is assumed on `P.memoryUsage` or on the
history. -/
theorem cpu_breach_alert (m : ResourceMonitor D) (pre post : List (ProcessInfo D))
    (P : ProcessInfo D) (hcpu : P.cpuUsage > m.cpuThreshold) :
    ∃ a : Alert D,
      (detectSuspiciousActivity m (pre ++ P :: post)).2 =
        (detectSuspiciousActivity m pre).2 ++
          a :: (detectSuspiciousActivity (detectSuspiciousActivity m (pre ++ [P])).1 post).2 ∧
      a.pid = P.pid ∧ a.name = P.name ∧ a.cpuUsage = P.cpuUsage ∧
      a.memoryMB = P.memoryUsage / 1024 ∧ Reason.highCPU P.cpuUsage ∈ a.reason := by
  have hb : cpuBreach (detectSuspiciousActivity m pre).1 P := by
    unfold cpuBreach; rw [(detect_thresholds m pre).1]; exact hcpu
  have hf : (classify (detectSuspiciousActivity m pre).1 P).1 = true :=
    (classify_fst_iff _ _).2 (Or.inl hb)
  refine ⟨mkAlert P (classify (detectSuspiciousActivity m pre).1 P).2, ?_, rfl, rfl, rfl, rfl, ?_⟩
  · rw [detect_split, detectStep_snd_of_fires _ _ hf]; rfl
  · exact highCPU_mem_classify _ _ hb

/-- C2, as amended.  Memory breach rule: a record `P` of the snapshot whose whole number
of megabytes `memoryUsage / 1024` (division rounding down) is above `memoryThreshold`,
that is, with `memoryUsage ≥ 1024 * (memoryThreshold + 1)`, gets an alert that carries the
pid, name, CPU value and MB of `P` and whose reason contains the High Memory fragment
with the value `memoryUsage / 1024`. -/
theorem memory_breach_alert (m : ResourceMonitor D) (pre post : List (ProcessInfo D))
    (P : ProcessInfo D) (hmem : 1024 * (m.memoryThreshold + 1) ≤ P.memoryUsage) :
    P.memoryUsage / 1024 > m.memoryThreshold ∧
    ∃ a : Alert D,
      (detectSuspiciousActivity m (pre ++ P :: post)).2 =
        (detectSuspiciousActivity m pre).2 ++
          a :: (detectSuspiciousActivity (detectSuspiciousActivity m (pre ++ [P])).1 post).2 ∧
      a.pid = P.pid ∧ a.name = P.name ∧ a.cpuUsage = P.cpuUsage ∧
      a.memoryMB = P.memoryUsage / 1024 ∧
      Reason.highMemory (P.memoryUsage / 1024) ∈ a.reason := by
  have hgt : P.memoryUsage / 1024 > m.memoryThreshold := by omega
  have hb : memoryBreach (detectSuspiciousActivity m pre).1 P := by
    unfold memoryBreach; rw [(detect_thresholds m pre).2]; exact hgt
  have hf : (classify (detectSuspiciousActivity m pre).1 P).1 = true :=
    (classify_fst_iff _ _).2 (Or.inr (Or.inl hb))
  refine ⟨hgt, mkAlert P (classify (detectSuspiciousActivity m pre).1 P).2,
    ?_, rfl, rfl, rfl, rfl, ?_⟩
  · rw [detect_split, detectStep_snd_of_fires _ _ hf]; rfl
  · exact highMemory_mem_classify _ _ hb

/-- C4.  First observation: when the history, as it stands after the records before `P`
have been processed, has no entry for `P.pid`, the loop body prints at most one alert for
`P`; if it prints one, its reason has no Rapid memory growth fragment, whatever
`P.memoryUsage` is, and the CPU rule or the memory rule fires for `P`. -/
theorem first_observation_no_growth (m : ResourceMonitor D)
    (pre post : List (ProcessInfo D)) (P : ProcessInfo D)
    (hnew : (detectSuspiciousActivity m pre).1.processHistory P.pid = none) :
    ∃ out : Option (Alert D),
      (detectSuspiciousActivity m (pre ++ P :: post)).2 =
        (detectSuspiciousActivity m pre).2 ++ (out.toList ++
          (detectSuspiciousActivity (detectSuspiciousActivity m (pre ++ [P])).1 post).2) ∧
      ∀ a, out = some a →
        (∀ g, Reason.rapidGrowth g ∉ a.reason) ∧
        (P.cpuUsage > m.cpuThreshold ∨ P.memoryUsage / 1024 > m.memoryThreshold) := by
  refine ⟨(detectStep (detectSuspiciousActivity m pre).1 P).2, detect_split m pre post P, ?_⟩
  intro a ha
  have hng : ¬ growthTest (detectSuspiciousActivity m pre).1.processHistory P := by
    rintro ⟨prev, hp, _⟩; rw [hnew] at hp; cases hp
  cases hf : (classify (detectSuspiciousActivity m pre).1 P).1 with
  | false => rw [detectStep_snd_of_not_fires _ _ hf] at ha; cases ha
  | true =>
    rw [detectStep_snd_of_fires _ _ hf] at ha
    cases ha
    constructor
    · intro g hg
      obtain ⟨prev, hp, _⟩ := (rapidGrowth_mem_classify_iff _ _ g).1 hg
      rw [hnew] at hp; cases hp
    · rcases (classify_fst_iff _ _).1 hf with h | h | h
      · left; unfold cpuBreach at h; rwa [(detect_thresholds m pre).1] at h
      · right; unfold memoryBreach at h; rwa [(detect_thresholds m pre).2] at h
      · exact absurd h hng

end ThresholdRules

/-- Witness of C1, the scenario of the specification: pid 200 at 85 against a threshold
of 70, with 100 MB. -/
theorem cpu_breach_alert_witness :
    (85 : Int) > 70 ∧
    ∃ a : Alert Int,
      (detectSuspiciousActivity (ResourceMonitor.new (70 : Int) 400)
        ([] ++ (⟨200, "p", 85, 102400, 0⟩ : ProcessInfo Int) :: [])).2 =
        (detectSuspiciousActivity (ResourceMonitor.new (70 : Int) 400) []).2 ++
          a :: (detectSuspiciousActivity (detectSuspiciousActivity
            (ResourceMonitor.new (70 : Int) 400) ([] ++ [⟨200, "p", 85, 102400, 0⟩])).1 []).2 ∧
      a.pid = 200 ∧ a.name = "p" ∧ a.cpuUsage = 85 ∧
      a.memoryMB = 102400 / 1024 ∧ Reason.highCPU 85 ∈ a.reason :=
  ⟨by decide, cpu_breach_alert (ResourceMonitor.new (70 : Int) 400) [] []
    ⟨200, "p", 85, 102400, 0⟩ (by decide)⟩

/-- C2 as stated fails: with the threshold at 400 MB a record of 409601 KB has
`memoryUsage > 1024 * memoryThreshold`, yet the detector prints no alert for it. -/
theorem memory_breach_counterexample :
    (409601 : Nat) > 1024 * (ResourceMonitor.new (70 : Int) 400).memoryThreshold ∧
    (detectSuspiciousActivity (ResourceMonitor.new (70 : Int) 400)
      [⟨7, "p", 0, 409601, 0⟩]).2 = [] := by
  constructor <;> decide

/-- Witness of the amended C2: 410624 KB is 401 MB, above a threshold of 400 MB. -/
theorem memory_breach_alert_witness :
    1024 * ((ResourceMonitor.new (70 : Int) 400).memoryThreshold + 1) ≤ 410624 ∧
    ((410624 : Nat) / 1024 > 400 ∧
    ∃ a : Alert Int,
      (detectSuspiciousActivity (ResourceMonitor.new (70 : Int) 400)
        ([] ++ (⟨7, "p", 0, 410624, 0⟩ : ProcessInfo Int) :: [])).2 =
        (detectSuspiciousActivity (ResourceMonitor.new (70 : Int) 400) []).2 ++
          a :: (detectSuspiciousActivity (detectSuspiciousActivity
            (ResourceMonitor.new (70 : Int) 400) ([] ++ [⟨7, "p", 0, 410624, 0⟩])).1 []).2 ∧
      a.pid = 7 ∧ a.name = "p" ∧ a.cpuUsage = 0 ∧
      a.memoryMB = 410624 / 1024 ∧ Reason.highMemory (410624 / 1024) ∈ a.reason) :=
  ⟨by decide, memory_breach_alert (ResourceMonitor.new (70 : Int) 400) [] []
    ⟨7, "p", 0, 410624, 0⟩ (by decide)⟩

/-- Witness of C4: a first observation of 10 GB with an empty history and a low CPU
value. -/
theorem first_observation_no_growth_witness :
    (detectSuspiciousActivity (ResourceMonitor.new (70 : Int) 400) []).1.processHistory 7 = none ∧
    ∃ out : Option (Alert Int),
      (detectSuspiciousActivity (ResourceMonitor.new (70 : Int) 400)
        ([] ++ (⟨7, "p", 0, 10485760, 0⟩ : ProcessInfo Int) :: [])).2 =
        (detectSuspiciousActivity (ResourceMonitor.new (70 : Int) 400) []).2 ++ (out.toList ++
          (detectSuspiciousActivity (detectSuspiciousActivity
            (ResourceMonitor.new (70 : Int) 400) ([] ++ [⟨7, "p", 0, 10485760, 0⟩])).1 []).2) ∧
      ∀ a, out = some a →
        (∀ g, Reason.rapidGrowth g ∉ a.reason) ∧
        ((0 : Int) > 70 ∨ 10485760 / 1024 > 400) :=
  ⟨rfl, first_observation_no_growth (ResourceMonitor.new (70 : Int) 400) [] []
    ⟨7, "p", 0, 10485760, 0⟩ rfl⟩

/-! ## Growth rule -/

section Growth

variable {D : Type}

/-- Below `2^53` the conversion to `double` is exact. -/
theorem roundToDouble_of_lt (n : Nat) (h : n < 2 ^ 53) : roundToDouble n = n := by
  unfold roundToDouble
  rw [if_pos h]

theorem doubleShift_quotient (fuel n : Nat) (h : 2 ^ 53 ≤ n) :
    2 ^ 52 ≤ n / 2 ^ doubleShift fuel n := by
  induction fuel generalizing n with
  | zero =>
    simp only [doubleShift, pow_zero, Nat.div_one]
    exact le_trans (by norm_num) h
  | succ f ih =>
    have e : 2 ^ (doubleShift f (n / 2) + 1) = 2 * 2 ^ doubleShift f (n / 2) := by
      rw [pow_succ, Nat.mul_comm]
    rw [doubleShift, if_neg (not_lt.2 h), e, ← Nat.div_div_eq_div_mul]
    by_cases h2 : 2 ^ 53 ≤ n / 2
    · exact ih _ h2
    · have hz : doubleShift f (n / 2) = 0 := by
        cases f with
        | zero => rfl
        | succ g => rw [doubleShift, if_pos (not_le.1 h2)]
      rw [hz, pow_zero, Nat.div_one]
      have e53 : (2 : Nat) ^ 53 = 9007199254740992 := by norm_num
      have e52 : (2 : Nat) ^ 52 = 4503599627370496 := by norm_num
      rw [e53] at h
      rw [e52]
      omega

/-- From `2^53` on the conversion to `double` gives at least `2^52`. -/
theorem roundToDouble_ge (n : Nat) (h : ¬ n < 2 ^ 53) : 2 ^ 52 ≤ roundToDouble n := by
  have hq := doubleShift_quotient n n (not_lt.1 h)
  have hpow : 1 ≤ 2 ^ doubleShift n n := Nat.one_le_two_pow
  have hmul : 2 ^ 52 ≤ n / 2 ^ doubleShift n n * 2 ^ doubleShift n n :=
    le_trans hq (Nat.le_mul_of_pos_right _ hpow)
  unfold roundToDouble
  rw [if_neg h]
  simp only []
  split_ifs
  · exact le_trans hmul (Nat.mul_le_mul_right _ (Nat.le_succ _))
  · exact hmul

/-- The conversion to `double` does not move an integer across 102400. -/
theorem roundToDouble_gt_iff (n : Nat) : roundToDouble n > 102400 ↔ n > 102400 := by
  by_cases h : n < 2 ^ 53
  · rw [roundToDouble_of_lt n h]
  · have h1 := roundToDouble_ge n h
    have h2 : (2 : Nat) ^ 53 ≤ n := not_lt.1 h
    have e52 : (2 : Nat) ^ 52 = 4503599627370496 := by norm_num
    have e53 : (2 : Nat) ^ 53 = 9007199254740992 := by norm_num
    rw [e52] at h1
    rw [e53] at h2
    constructor <;> intro _ <;> omega

/-- The test `memGrowth > 100` is a test on the `size_t` difference in KB. -/
theorem memGrowth_gt_iff (proc prev : ProcessInfo D) :
    memGrowth proc prev > 100 ↔ sizeSub proc.memoryUsage prev.memoryUsage > 102400 := by
  rw [← roundToDouble_gt_iff]
  unfold memGrowth
  rw [gt_iff_lt, lt_div_iff₀ (by norm_num)]
  constructor
  · intro h
    have h' : ((102400 : Nat) : ℚ) <
        (roundToDouble (sizeSub proc.memoryUsage prev.memoryUsage) : ℚ) := by
      push_cast; linarith
    exact_mod_cast h'
  · intro h
    have h' : ((102400 : Nat) : ℚ) <
        (roundToDouble (sizeSub proc.memoryUsage prev.memoryUsage) : ℚ) := by
      exact_mod_cast h
    push_cast at h'; linarith

/-- When memory has not shrunk, the growth test is the one on the real difference: it
holds exactly when the record is more than 102400 KB above the prior one. -/
theorem memGrowth_gt_of_le (proc prev : ProcessInfo D)
    (hle : prev.memoryUsage ≤ proc.memoryUsage) (hsz : proc.memoryUsage < sizeModulus) :
    memGrowth proc prev > 100 ↔ proc.memoryUsage > prev.memoryUsage + 102400 := by
  rw [memGrowth_gt_iff]
  unfold sizeSub sizeModulus at *
  omega

/-- When memory has shrunk, the `size_t` difference wraps around and the growth test
holds, unless the drop is within 102400 KB of the whole `size_t` range. -/
theorem memGrowth_gt_of_lt (proc prev : ProcessInfo D)
    (hlt : proc.memoryUsage < prev.memoryUsage) (hsz : prev.memoryUsage < sizeModulus) :
    memGrowth proc prev > 100 ↔
      prev.memoryUsage - proc.memoryUsage < sizeModulus - 102400 := by
  rw [memGrowth_gt_iff]
  unfold sizeSub sizeModulus at *
  omega

theorem memGrowth_self_le (proc prev : ProcessInfo D)
    (h : prev.memoryUsage = proc.memoryUsage) : ¬ memGrowth proc prev > 100 := by
  rw [memGrowth_gt_iff, h]
  unfold sizeSub sizeModulus
  omega

end Growth

/-- C3, at the failing input.  A first scan records pid 7 with 2048 KB; in the next scan
pid 7 has 1024 KB, a growth of -1 MB.  The detector prints an alert for it whose reason
is Rapid memory growth, with the value `2^64 / 1024` MB: the wrapped-around difference
`2^64 - 1024`, which the conversion to `double` rounds to `2^64`. -/
theorem growth_rule_fires_on_decrease :
    (detectSuspiciousActivity
      (detectSuspiciousActivity (ResourceMonitor.new (70 : Int) 400)
        [⟨7, "p", 0, 2048, 0⟩]).1
      [⟨7, "p", 0, 1024, 5⟩]).2 =
      [⟨7, "p", [Reason.rapidGrowth 18014398509481984], 0, 1⟩] := by
  decide!

/-! ## History -/

section HistoryWrites

variable {D : Type}

theorem historyAfter_append (h : History D) (A B : List (ProcessInfo D)) :
    historyAfter h (A ++ B) = historyAfter (historyAfter h A) B := by
  simp [historyAfter, List.foldl_append]

theorem historyAfter_cons (h : History D) (p : ProcessInfo D) (B : List (ProcessInfo D)) :
    historyAfter h (p :: B) = historyAfter (historyPut h p) B := rfl

theorem historyAfter_of_not_mem (h : History D) (S : List (ProcessInfo D)) (pid : Int)
    (hS : ∀ p ∈ S, p.pid ≠ pid) : historyAfter h S pid = h pid := by
  induction S generalizing h with
  | nil => rfl
  | cons p S ih =>
    rw [historyAfter_cons, ih _ (fun q hq => hS q (List.mem_cons_of_mem _ hq))]
    have : pid ≠ p.pid := fun e => hS p (List.mem_cons_self _ _) e.symm
    simp [historyPut, this]

theorem historyAfter_of_last (h : History D) (pre post : List (ProcessInfo D))
    (r : ProcessInfo D) (hpost : ∀ p ∈ post, p.pid ≠ r.pid) :
    historyAfter h (pre ++ r :: post) r.pid = some r := by
  rw [historyAfter_append, historyAfter_cons, historyAfter_of_not_mem _ _ _ hpost]
  simp [historyPut]

end HistoryWrites

section HistoryLemmas

variable {D : Type} [LT D] [DecidableRel (fun (a b : D) => a < b)]

theorem monitor_history (m : ResourceMonitor D) (snaps : List (List (ProcessInfo D))) :
    (monitor m snaps).1.processHistory = historyAfter m.processHistory snaps.flatten := by
  induction snaps generalizing m with
  | nil => rfl
  | cons S snaps ih =>
    have h1 : (monitor m (S :: snaps)).1 = (monitor (detectSuspiciousActivity m S).1 snaps).1 :=
      rfl
    rw [h1, ih, detect_history, List.flatten_cons, historyAfter_append]

/-- C5.  History overwrite semantics.  After `detectSuspiciousActivity` on a snapshot
`S`, a pid that does not occur in `S` has the entry it had before (none if it had none),
and a pid that occurs in `S` has exactly the last record of `S` with that pid, whether
or not an alert was printed for it.  On the empty snapshot the monitor is unchanged and
nothing is printed.  After a run of successive calls, the entry of a pid is its last
record in the most recent snapshot that contained it. -/
theorem history_overwrite (m : ResourceMonitor D) (pid : Int) :
    (∀ S : List (ProcessInfo D), (∀ p ∈ S, p.pid ≠ pid) →
      (detectSuspiciousActivity m S).1.processHistory pid = m.processHistory pid) ∧
    (∀ (pre post : List (ProcessInfo D)) (r : ProcessInfo D),
      r.pid = pid → (∀ p ∈ post, p.pid ≠ pid) →
      (detectSuspiciousActivity m (pre ++ r :: post)).1.processHistory pid = some r) ∧
    detectSuspiciousActivity m [] = (m, []) ∧
    (∀ (before later : List (List (ProcessInfo D))) (pre post : List (ProcessInfo D))
      (r : ProcessInfo D),
      r.pid = pid → (∀ p ∈ post, p.pid ≠ pid) → (∀ S ∈ later, ∀ p ∈ S, p.pid ≠ pid) →
      (monitor m (before ++ (pre ++ r :: post) :: later)).1.processHistory pid = some r) := by
  refine ⟨?_, ?_, rfl, ?_⟩
  · intro S hS
    rw [detect_history, historyAfter_of_not_mem _ _ _ hS]
  · intro pre post r hr hpost
    subst hr
    rw [detect_history, historyAfter_of_last _ _ _ _ hpost]
  · intro before later pre post r hr hpost hlater
    subst hr
    rw [monitor_history]
    have e : (before ++ (pre ++ r :: post) :: later).flatten =
        (before.flatten ++ pre) ++ r :: (post ++ later.flatten) := by simp
    rw [e]
    apply historyAfter_of_last
    intro p hp
    rcases List.mem_append.1 hp with hp | hp
    · exact hpost p hp
    · obtain ⟨S, hS, hpS⟩ := List.mem_flatten.1 hp
      exact hlater S hS p hpS

end HistoryLemmas

/-- Witness of C5: three scans; pid 7 occurs twice in the second scan and not in the
third, pid 9 occurs in no scan. -/
theorem history_overwrite_witness :
    (detectSuspiciousActivity (ResourceMonitor.new (70 : Int) 400)
      [⟨3, "a", 0, 10, 0⟩, ⟨4, "b", 0, 10, 0⟩]).1.processHistory 7 =
        (ResourceMonitor.new (70 : Int) 400).processHistory 7 ∧
    (detectSuspiciousActivity (ResourceMonitor.new (70 : Int) 400)
      ([⟨7, "p", 0, 10, 0⟩] ++ ⟨7, "q", 90, 20, 1⟩ :: [⟨4, "b", 0, 10, 0⟩])).1.processHistory 7 =
        some ⟨7, "q", 90, 20, 1⟩ ∧
    (monitor (ResourceMonitor.new (70 : Int) 400)
      ([[⟨7, "o", 0, 5, 0⟩]] ++
        ([⟨7, "p", 0, 10, 1⟩] ++ ⟨7, "q", 90, 20, 1⟩ :: [⟨4, "b", 0, 10, 1⟩]) ::
        [[⟨4, "b", 0, 10, 2⟩]])).1.processHistory 7 = some ⟨7, "q", 90, 20, 1⟩ :=
  ⟨(history_overwrite (ResourceMonitor.new (70 : Int) 400) 7).1
      [⟨3, "a", 0, 10, 0⟩, ⟨4, "b", 0, 10, 0⟩] (by decide),
    (history_overwrite (ResourceMonitor.new (70 : Int) 400) 7).2.1
      [⟨7, "p", 0, 10, 0⟩] [⟨4, "b", 0, 10, 0⟩] ⟨7, "q", 90, 20, 1⟩ rfl (by decide),
    (history_overwrite (ResourceMonitor.new (70 : Int) 400) 7).2.2.2
      [[⟨7, "o", 0, 5, 0⟩]] [[⟨4, "b", 0, 10, 2⟩]]
      [⟨7, "p", 0, 10, 1⟩] [⟨4, "b", 0, 10, 1⟩] ⟨7, "q", 90, 20, 1⟩ rfl (by decide) (by decide)⟩

/-! ## The alerts of a scan -/

section Findings

variable {D : Type} [LT D] [DecidableRel (fun (a b : D) => a < b)]

omit [LT D] [DecidableRel (fun (a b : D) => a < b)] in
theorem withPrefixes_cons (p : ProcessInfo D) (S : List (ProcessInfo D)) :
    withPrefixes (p :: S) =
      ([], p) :: (withPrefixes S).map (fun x => (p :: x.1, x.2)) := by
  simp only [withPrefixes, List.inits_cons, List.zip_cons_cons, List.zip_map_left]
  rfl

theorem detectStep_snd_shown (m : ResourceMonitor D) (p : ProcessInfo D) :
    (detectStep m p).2.toList.map Alert.shown =
      if tested m m.processHistory p then [p.shown] else [] := by
  cases hf : (classify m p).1 with
  | false =>
    have : tested m m.processHistory p = false := by
      unfold tested
      rw [decide_eq_false_iff_not, ← classify_fst_iff, hf]; simp
    rw [detectStep_snd_of_not_fires _ _ hf, this]; rfl
  | true =>
    have : tested m m.processHistory p = true := by
      unfold tested
      rw [decide_eq_true_iff, ← classify_fst_iff, hf]
    rw [detectStep_snd_of_fires _ _ hf, this]; rfl

/-- The alerts of a scan are the records that pass a test of the detector, in snapshot
order: pairing each record with the history as it stands when the record is evaluated
(the initial history overwritten with the records before it), the alerts printed are, in
order, one for each record for which the CPU test, the memory test or the growth test of
the detector holds, and none for the others; each shows the pid, name, `cpuUsage` and
`memoryUsage / 1024` of its record. -/
theorem alerts_are_tested_records (m : ResourceMonitor D) (S : List (ProcessInfo D)) :
    (detectSuspiciousActivity m S).2.map Alert.shown =
      ((withPrefixes S).filter
        (fun x => tested m (historyAfter m.processHistory x.1) x.2)).map
        (fun x => x.2.shown) := by
  induction S generalizing m with
  | nil => rfl
  | cons p S ih =>
    rw [detect_cons, List.map_append, detectStep_snd_shown, ih, withPrefixes_cons,
      List.filter_cons, List.filter_map]
    have e2 : ((fun x : List (ProcessInfo D) × ProcessInfo D =>
          tested m (historyAfter m.processHistory x.1) x.2) ∘
          fun x => (p :: x.1, x.2)) =
        fun x : List (ProcessInfo D) × ProcessInfo D => tested (detectStep m p).1 (historyAfter (detectStep m p).1.processHistory x.1)
          x.2 := rfl
    rw [e2]
    change (if tested m m.processHistory p = true then [p.shown] else []) ++ _ = _
    split_ifs with h1 h2 h2
    · simp
    · exact absurd h1 h2
    · exact absurd h2 h1
    · simp

omit [LT D] [DecidableRel (fun (a b : D) => a < b)] in
/-- The growth of a record over a prior one is above 100 MB exactly when the record is
more than 102400 KB above the prior one. -/
theorem growthMB_gt_iff (proc prev : ProcessInfo D) :
    growthMB proc prev > 100 ↔ proc.memoryUsage > prev.memoryUsage + 102400 := by
  unfold growthMB
  rw [gt_iff_lt, lt_div_iff₀ (by norm_num)]
  constructor
  · intro h
    have h' : ((prev.memoryUsage + 102400 : Nat) : ℚ) < (proc.memoryUsage : ℚ) := by
      push_cast; linarith
    exact_mod_cast h'
  · intro h
    have h' : ((prev.memoryUsage + 102400 : Nat) : ℚ) < (proc.memoryUsage : ℚ) := by
      exact_mod_cast h
    push_cast at h'; linarith

omit [LT D] [DecidableRel (fun (a b : D) => a < b)] in
/-- For a record whose memory has not shrunk below that of its prior record, the growth
test of the detector is the growth breach rule. -/
theorem growthTest_iff_growthBreach (h : History D) (proc : ProcessInfo D)
    (hle : ∀ prev, h proc.pid = some prev →
      prev.memoryUsage ≤ proc.memoryUsage ∧ proc.memoryUsage < sizeModulus) :
    growthTest h proc ↔ growthBreach h proc := by
  unfold growthTest growthBreach
  constructor
  · rintro ⟨prev, hp, hg⟩
    exact ⟨prev, hp, (growthMB_gt_iff proc prev).2
      ((memGrowth_gt_of_le proc prev (hle prev hp).1 (hle prev hp).2).1 hg)⟩
  · rintro ⟨prev, hp, hg⟩
    exact ⟨prev, hp, (memGrowth_gt_of_le proc prev (hle prev hp).1 (hle prev hp).2).2
      ((growthMB_gt_iff proc prev).1 hg)⟩

/-- In a scan where no record has less memory than the prior record of its pid, the
alerts are the triggering records, in snapshot order: one for each record for which the
CPU breach, the memory breach or the growth breach rule fires against the history as it
stands when the record is evaluated, none for the others, each showing the pid, name,
`cpuUsage` and `memoryUsage / 1024` of its record. -/
theorem alerts_are_triggering_records_of_no_shrink (m : ResourceMonitor D)
    (S : List (ProcessInfo D))
    (hle : ∀ x ∈ withPrefixes S, ∀ prev,
      historyAfter m.processHistory x.1 x.2.pid = some prev →
      prev.memoryUsage ≤ x.2.memoryUsage ∧ x.2.memoryUsage < sizeModulus) :
    (detectSuspiciousActivity m S).2.map Alert.shown =
      ((withPrefixes S).filter
        (fun x => fires m (historyAfter m.processHistory x.1) x.2)).map
        (fun x => x.2.shown) := by
  rw [alerts_are_tested_records]
  congr 1
  apply List.filter_congr
  intro x hx
  unfold tested fires
  have e := growthTest_iff_growthBreach _ _ (hle x hx)
  exact decide_eq_decide.2 (or_congr_right (or_congr_right e))

end Findings

/-- C6, at the failing input.  A first scan records pid 7 with 2048 KB; the next scan is
the single record of pid 7 with 1024 KB and `cpuUsage` 0, against thresholds 70 and 400 MB.
None of the three rules fires for that record (its growth is -1 MB), so the triggering
records are none; the detector prints an alert for it. -/
theorem alert_without_triggering_rule :
    (detectSuspiciousActivity
      (detectSuspiciousActivity (ResourceMonitor.new (70 : Int) 400)
        [⟨7, "p", 0, 2048, 0⟩]).1
      [⟨7, "p", 0, 1024, 5⟩]).2.map Alert.shown = [(7, "p", 0, 1)] ∧
    ((withPrefixes [(⟨7, "p", 0, 1024, 5⟩ : ProcessInfo Int)]).filter
      (fun x => fires
        (detectSuspiciousActivity (ResourceMonitor.new (70 : Int) 400)
          [⟨7, "p", 0, 2048, 0⟩]).1
        (historyAfter (detectSuspiciousActivity (ResourceMonitor.new (70 : Int) 400)
          [⟨7, "p", 0, 2048, 0⟩]).1.processHistory x.1) x.2)).map
      (fun x => x.2.shown) = [] := by
  constructor <;> decide!

/-! ## Scanning the same snapshot twice -/

section Repeat

variable {D : Type} [LT D] [DecidableRel (fun (a b : D) => a < b)]

theorem thresholdAlert_no_growth (m : ResourceMonitor D) (p : ProcessInfo D) (a : Alert D)
    (ha : a ∈ thresholdAlert m p) (g : ℚ) : Reason.rapidGrowth g ∉ a.reason := by
  unfold thresholdAlert checkMemory checkCpu at ha
  simp only [] at ha
  split_ifs at ha <;> simp_all [mkAlert]

theorem detectStep_dropGrowth (m : ResourceMonitor D) (p : ProcessInfo D) :
    (detectStep m p).2.toList.filterMap dropGrowth = thresholdAlert m p := by
  unfold detectStep classify checkGrowth thresholdAlert checkMemory checkCpu
  cases hh : m.processHistory p.pid with
  | none =>
    simp only []
    split_ifs <;> simp_all [dropGrowth, mkAlert, Reason.isGrowth, List.filter]
  | some prev =>
    simp only []
    split_ifs <;> simp_all [dropGrowth, mkAlert, Reason.isGrowth, List.filter]

theorem detectStep_of_same_memory (m : ResourceMonitor D) (p prev : ProcessInfo D)
    (hh : m.processHistory p.pid = some prev) (hm : prev.memoryUsage = p.memoryUsage) :
    (detectStep m p).2.toList = thresholdAlert m p := by
  have hg : ¬ memGrowth p prev > 100 := memGrowth_self_le p prev hm
  unfold detectStep classify checkGrowth thresholdAlert
  rw [hh]
  simp only [hg, if_false]
  split_ifs <;> rfl

theorem detect_dropGrowth (m : ResourceMonitor D) (S : List (ProcessInfo D)) :
    (detectSuspiciousActivity m S).2.filterMap dropGrowth = S.flatMap (thresholdAlert m) := by
  induction S generalizing m with
  | nil => rfl
  | cons p S ih =>
    rw [detect_cons, List.filterMap_append, detectStep_dropGrowth, ih, List.flatMap_cons]
    rfl

theorem detect_of_history_current (m : ResourceMonitor D) (S : List (ProcessInfo D))
    (hS : (S.map (fun p => p.pid)).Nodup)
    (hcur : ∀ p ∈ S, m.processHistory p.pid = some p) :
    (detectSuspiciousActivity m S).2 = S.flatMap (thresholdAlert m) := by
  induction S generalizing m with
  | nil => rfl
  | cons p S ih =>
    rw [List.map_cons, List.nodup_cons] at hS
    have hstep := detectStep_of_same_memory m p p (hcur p (List.mem_cons_self _ _)) rfl
    have hrest : ∀ q ∈ S, (detectStep m p).1.processHistory q.pid = some q := by
      intro q hq
      have hne : q.pid ≠ p.pid := by
        intro e
        exact hS.1 (List.mem_map.2 ⟨q, hq, e⟩)
      rw [detectStep_fst]
      simp only [historyPut, hne, if_false]
      exact hcur q (List.mem_cons_of_mem _ hq)
    rw [detect_cons, hstep, ih _ hS.2 hrest, List.flatMap_cons]
    rfl

theorem history_current_after_detect (m : ResourceMonitor D) (S : List (ProcessInfo D))
    (hS : (S.map (fun p => p.pid)).Nodup) (p : ProcessInfo D) (hp : p ∈ S) :
    (detectSuspiciousActivity m S).1.processHistory p.pid = some p := by
  obtain ⟨pre, post, rfl⟩ := List.append_of_mem hp
  rw [detect_history]
  apply historyAfter_of_last
  intro q hq e
  rw [List.map_append, List.map_cons, List.nodup_append] at hS
  exact (List.nodup_cons.1 hS.2.1).1 (List.mem_map.2 ⟨q, hq, e⟩)

/-- C7.  Idempotence of detection up to growth: for a snapshot whose pids are pairwise
distinct, scanned twice in succession from any initial monitor, no alert of the second
scan has a Rapid memory growth fragment, and the alerts of the second scan are those of
the first with the Rapid memory growth fragments removed, an alert that had no other
fragment being dropped; the High CPU and High Memory fragments are unchanged. -/
theorem second_scan_drops_growth (m : ResourceMonitor D) (S : List (ProcessInfo D))
    (hS : (S.map (fun p => p.pid)).Nodup) :
    (∀ a ∈ (detectSuspiciousActivity (detectSuspiciousActivity m S).1 S).2,
      ∀ g, Reason.rapidGrowth g ∉ a.reason) ∧
    (detectSuspiciousActivity (detectSuspiciousActivity m S).1 S).2 =
      (detectSuspiciousActivity m S).2.filterMap dropGrowth := by
  have h2 := detect_of_history_current (detectSuspiciousActivity m S).1 S hS
    (fun p hp => history_current_after_detect m S hS p hp)
  have hthr : thresholdAlert (detectSuspiciousActivity m S).1 = thresholdAlert m := by
    funext p
    unfold thresholdAlert checkMemory checkCpu
    rw [(detect_thresholds m S).1, (detect_thresholds m S).2]
  constructor
  · intro a ha g
    rw [h2] at ha
    obtain ⟨p, _, hap⟩ := List.mem_flatMap.1 ha
    exact thresholdAlert_no_growth _ p a hap g
  · rw [h2, detect_dropGrowth, hthr]

end Repeat

/-- Witness of C7: pid 7 has grown by 150 MB since the recorded history and pid 8 is
above the CPU threshold; the first scan prints both, the second only pid 8. -/
theorem second_scan_drops_growth_witness :
    ([(⟨7, "p", 0, 204800, 1⟩ : ProcessInfo Int), ⟨8, "q", 90, 204800, 1⟩].map
      (fun p => p.pid)).Nodup ∧
    ((∀ a ∈ (detectSuspiciousActivity (detectSuspiciousActivity
        (detectSuspiciousActivity (ResourceMonitor.new (70 : Int) 400)
          [⟨7, "p", 0, 51200, 0⟩]).1
        [⟨7, "p", 0, 204800, 1⟩, ⟨8, "q", 90, 204800, 1⟩]).1
        [⟨7, "p", 0, 204800, 1⟩, ⟨8, "q", 90, 204800, 1⟩]).2,
      ∀ g, Reason.rapidGrowth g ∉ a.reason) ∧
    (detectSuspiciousActivity (detectSuspiciousActivity
        (detectSuspiciousActivity (ResourceMonitor.new (70 : Int) 400)
          [⟨7, "p", 0, 51200, 0⟩]).1
        [⟨7, "p", 0, 204800, 1⟩, ⟨8, "q", 90, 204800, 1⟩]).1
        [⟨7, "p", 0, 204800, 1⟩, ⟨8, "q", 90, 204800, 1⟩]).2 =
      (detectSuspiciousActivity
        (detectSuspiciousActivity (ResourceMonitor.new (70 : Int) 400)
          [⟨7, "p", 0, 51200, 0⟩]).1
        [⟨7, "p", 0, 204800, 1⟩, ⟨8, "q", 90, 204800, 1⟩]).2.filterMap dropGrowth) :=
  ⟨by decide, second_scan_drops_growth
    (detectSuspiciousActivity (ResourceMonitor.new (70 : Int) 400) [⟨7, "p", 0, 51200, 0⟩]).1
    [⟨7, "p", 0, 204800, 1⟩, ⟨8, "q", 90, 204800, 1⟩] (by decide)⟩

/-! ## Lemmas on the string operations -/

theorem findFrom_of_not_mem (c : Char) (l : List Char) (i : Nat) (h : c ∉ l) :
    findFrom c l i = npos := by
  induction l generalizing i with
  | nil => rfl
  | cons x xs ih =>
    have hx : x ≠ c := fun e => h (e ▸ List.mem_cons_self _ _)
    simp only [findFrom, hx, if_false]
    exact ih _ (fun hm => h (List.mem_cons_of_mem _ hm))

theorem findFrom_append (c : Char) (pre tl : List Char) (i : Nat) (h : c ∉ pre) :
    findFrom c (pre ++ c :: tl) i = i + pre.length := by
  induction pre generalizing i with
  | nil => simp [findFrom]
  | cons x xs ih =>
    have hx : x ≠ c := fun e => h (e ▸ List.mem_cons_self _ _)
    rw [List.cons_append, findFrom, if_neg hx, ih _ (fun hm => h (List.mem_cons_of_mem _ hm)),
      List.length_cons]
    omega

theorem findFrom_range (c : Char) (l : List Char) (i : Nat) :
    findFrom c l i = npos ∨ (i ≤ findFrom c l i ∧ findFrom c l i < i + l.length) := by
  induction l generalizing i with
  | nil => left; rfl
  | cons x xs ih =>
    by_cases hx : x = c
    · right; simp [findFrom, hx]
    · simp only [findFrom, hx, if_false, List.length_cons]
      rcases ih (i + 1) with h | h
      · left; exact h
      · right; omega

theorem find_range (line : List Char) (c : Char) :
    find line c = npos ∨ find line c < line.length := by
  rcases findFrom_range c line 0 with h | h
  · left; exact h
  · right; unfold find; omega

/-- The name extraction of lines 125-129 never throws: `start` is at most the length
of the line. -/
theorem statName_ok (name0 line : List Char) (hlen : line.length + 2 < sizeModulus) :
    ∃ name, statName name0 line = Except.ok name := by
  unfold statName
  simp only []
  split_ifs with h
  · have hs : ¬ (find line '(' + 1) % sizeModulus > line.length := by
      rcases find_range line '(' with e | e
      · rw [e]; unfold npos sizeModulus; omega
      · unfold sizeModulus at *; omega
    rw [substr, if_neg hs]
    exact ⟨_, rfl⟩
  · exact ⟨name0, rfl⟩

/-- The step throws exactly on the empty line and on a line whose first `)` is its last
character. -/
theorem statStep_throws_iff (clkTck utime0 stime0 : Int) (name0 line : List Char)
    (hlen : line.length + 2 < sizeModulus) :
    statStep clkTck utime0 stime0 name0 line = Except.error Exception.outOfRange ↔
      line = [] ∨ find line ')' + 1 = line.length := by
  obtain ⟨name, hname⟩ := statName_ok name0 line hlen
  unfold statStep
  rw [hname]
  simp only []
  by_cases hpos : (find line ')' + 2) % sizeModulus > line.length
  · rw [substr, if_pos hpos]
    simp only [true_iff]
    rcases find_range line ')' with e | e
    · left
      rw [e] at hpos
      have : line.length = 0 := by unfold npos sizeModulus at hpos; omega
      exact List.length_eq_zero.1 this
    · right; unfold sizeModulus at *; omega
  · rw [substr, if_neg hpos]
    simp only []
    constructor
    · intro h; cases h
    · rintro (h | h)
      · subst h
        exact absurd (by decide : (find [] ')' + 2) % sizeModulus > ([] : List Char).length) hpos
      · exfalso; apply hpos; unfold sizeModulus at *; omega

/-- When the name holds no `)`, the step stores the whole name and computes the CPU
value from the text that follows the `)` and the character after it. -/
theorem statStep_of_no_close_paren (clkTck utime0 stime0 : Int)
    (name0 pre comm rest : List Char)
    (hopen : '(' ∉ pre) (hclose : ')' ∉ pre) (hcomm : ')' ∉ comm) (hrest : rest ≠ [])
    (hlen : (pre ++ '(' :: (comm ++ ')' :: rest)).length + 2 < sizeModulus) :
    statStep clkTck utime0 stime0 name0 (pre ++ '(' :: (comm ++ ')' :: rest)) =
      Except.ok (comm, statCpu clkTck utime0 stime0 (rest.drop 1)) := by
  have hfo : find (pre ++ '(' :: (comm ++ ')' :: rest)) '(' = pre.length := by
    unfold find; rw [findFrom_append _ _ _ _ hopen]; omega
  have hfc : find (pre ++ '(' :: (comm ++ ')' :: rest)) ')' = pre.length + 1 + comm.length := by
    have e : pre ++ '(' :: (comm ++ ')' :: rest) = (pre ++ '(' :: comm) ++ ')' :: rest := by
      simp
    have hn : ')' ∉ pre ++ '(' :: comm := by
      simp only [List.mem_append, List.mem_cons, not_or]
      exact ⟨hclose, by decide, hcomm⟩
    unfold find; rw [e, findFrom_append _ _ _ _ hn]; simp; omega
  have hrl : 0 < rest.length := List.length_pos.2 hrest
  have hlen' := hlen
  simp only [List.length_append, List.length_cons] at hlen'
  have hstart : (pre.length + 1) % sizeModulus = pre.length + 1 := by
    unfold sizeModulus at *; omega
  have hsub : sizeSub (pre.length + 1 + comm.length) (pre.length + 1) = comm.length := by
    unfold sizeSub sizeModulus at *; omega
  have hc1 : (pre.length + 1 ≠ npos ∧ pre.length + 1 + comm.length ≠ npos) := by
    unfold npos sizeModulus at *; omega
  have hname : statName name0 (pre ++ '(' :: (comm ++ ')' :: rest)) = Except.ok comm := by
    have hle : ¬ pre.length + 1 > (pre ++ '(' :: (comm ++ ')' :: rest)).length := by
      simp only [List.length_append, List.length_cons]; omega
    unfold statName
    simp only [hfo, hfc, hstart, hsub]
    rw [if_pos hc1, substr, if_neg hle]
    have e : pre ++ '(' :: (comm ++ ')' :: rest) = (pre ++ ['(']) ++ (comm ++ ')' :: rest) := by
      simp
    have hl : (pre ++ ['(']).length = pre.length + 1 := by simp
    rw [e, ← hl, List.drop_left, List.take_left]
  have hmod : (pre.length + 1 + comm.length + 2) % sizeModulus =
      (pre ++ '(' :: (comm ++ [')'])).length + 1 := by
    simp only [List.length_append, List.length_cons, List.length_nil]
    unfold sizeModulus at *; omega
  have hpos : ¬ (pre ++ '(' :: (comm ++ [')'])).length + 1 >
      (pre ++ '(' :: (comm ++ ')' :: rest)).length := by
    simp only [List.length_append, List.length_cons, List.length_nil]
    omega
  have hdrop : (pre ++ '(' :: (comm ++ ')' :: rest)).drop
      ((pre ++ '(' :: (comm ++ [')'])).length + 1) = rest.drop 1 := by
    have e : pre ++ '(' :: (comm ++ ')' :: rest) = (pre ++ '(' :: (comm ++ [')'])) ++ rest := by
      simp
    rw [e, ← List.drop_drop, List.drop_left]
  have htake : (rest.drop 1).take npos = rest.drop 1 := by
    apply List.take_of_length_le
    rw [List.length_drop]
    unfold npos sizeModulus at *; omega
  unfold statStep
  rw [hname]
  simp only [hfc, hmod]
  rw [substr, if_neg hpos, hdrop, htake]

/-! ## Lemmas on the stream operations -/

theorem ignoreChars_field (f tl : List Char) (n : Nat) (hsp : ' ' ∉ f) (hlen : f.length < n) :
    ignoreChars ' ' n (f ++ ' ' :: tl) = (tl, false) := by
  induction f generalizing n with
  | nil =>
    obtain ⟨k, rfl⟩ : ∃ k, n = k + 1 := ⟨n - 1, by simp at hlen; omega⟩
    simp [ignoreChars]
  | cons x xs ih =>
    obtain ⟨k, rfl⟩ : ∃ k, n = k + 1 := ⟨n - 1, by simp at hlen; omega⟩
    have hx : x ≠ ' ' := fun e => hsp (e ▸ List.mem_cons_self _ _)
    rw [List.cons_append, ignoreChars, if_neg hx]
    exact ih k (fun hm => hsp (List.mem_cons_of_mem _ hm)) (by simp at hlen; omega)

/-- The loop of `ignore` calls skips as many fields as it has iterations, when each
field is blank-free and shorter than 256 characters. -/
theorem ignoreFields_joinFields (fs : List (List Char)) (tl : List Char)
    (hf : ∀ f ∈ fs, ' ' ∉ f ∧ f.length < 256) :
    ignoreFields fs.length { buf := joinFields fs tl, eofbit := false, failbit := false } =
      { buf := tl, eofbit := false, failbit := false } := by
  induction fs with
  | nil => rfl
  | cons f fs ih =>
    have h1 := hf f (List.mem_cons_self _ _)
    have e : joinFields (f :: fs) tl = f ++ ' ' :: joinFields fs tl := rfl
    rw [List.length_cons, ignoreFields, e]
    have : (IStringStream.mk (f ++ ' ' :: joinFields fs tl) false false).ignore 256 ' ' =
        IStringStream.mk (joinFields fs tl) false false := by
      simp [IStringStream.ignore, IStringStream.good, ignoreChars_field f _ 256 h1.1 h1.2]
    rw [this]
    exact ih (fun g hg => hf g (List.mem_cons_of_mem _ hg))

theorem isDigit_not_space (c : Char) (h : c.isDigit = true) : isSpace c = false := by
  have h48 : 48 ≤ c.toNat := by
    simp only [Char.isDigit, Bool.and_eq_true, decide_eq_true_eq] at h
    exact h.1
  have hne : ∀ d : Char, d.toNat < 48 → c ≠ d := by
    intro d hd e; subst e; omega
  simp only [isSpace, Bool.or_eq_false_iff, decide_eq_false_iff_not]
  refine ⟨⟨⟨⟨⟨?_, ?_⟩, ?_⟩, ?_⟩, ?_⟩, ?_⟩
  · exact hne ' ' (by decide)
  · exact hne '\t' (by decide)
  · exact hne '\n' (by decide)
  · exact hne '\r' (by decide)
  · omega
  · omega

theorem isDigit_not_sign (c : Char) (h : c.isDigit = true) : ¬ (c = '-' ∨ c = '+') := by
  rintro (e | e) <;> subst e <;> exact absurd h (by decide)

/-- The extraction of a `long` from a good stream that stands at a blank followed by a
decimal number in range and a blank: the number is read, the stream stays good. -/
theorem extractLong_number (ds tl : List Char) (v : Int) (blank : Bool)
    (hne : ds ≠ []) (hd : ∀ c ∈ ds, c.isDigit = true)
    (hr : (decimalValue ds : Int) ≤ LONG_MAX) :
    IStringStream.extractLong
      { buf := (if blank then [' '] else []) ++ (ds ++ ' ' :: tl), eofbit := false,
        failbit := false } v =
      ({ buf := ' ' :: tl, eofbit := false, failbit := false }, (decimalValue ds : Int)) := by
  obtain ⟨d, ds', rfl⟩ := List.exists_cons_of_ne_nil hne
  have hd0 : d.isDigit = true := hd d (List.mem_cons_self _ _)
  have hskip : ((if blank then [' '] else []) ++ (d :: ds' ++ ' ' :: tl)).dropWhile isSpace =
      d :: (ds' ++ ' ' :: tl) := by
    cases blank
    · simp [List.dropWhile, isDigit_not_space d hd0]
    · have : isSpace ' ' = true := by decide
      simp [List.dropWhile, isDigit_not_space d hd0, this]
  have htake : (d :: (ds' ++ ' ' :: tl)).takeWhile Char.isDigit = d :: ds' := by
    have : d :: (ds' ++ ' ' :: tl) = (d :: ds') ++ ' ' :: tl := rfl
    rw [this, List.takeWhile_append_of_pos hd]
    have : Char.isDigit ' ' = false := by decide
    simp [List.takeWhile, this]
  have hdrop : (d :: (ds' ++ ' ' :: tl)).dropWhile Char.isDigit = ' ' :: tl := by
    have : d :: (ds' ++ ' ' :: tl) = (d :: ds') ++ ' ' :: tl := rfl
    rw [this, List.dropWhile_append_of_pos hd]
    have : Char.isDigit ' ' = false := by decide
    simp [List.dropWhile, this]
  have hminus : d ≠ '-' := fun e => isDigit_not_sign d hd0 (Or.inl e)
  have hnotmax : ¬ (decimalValue (d :: ds') : Int) > LONG_MAX := not_lt.2 hr
  have hnotmin : ¬ (decimalValue (d :: ds') : Int) < LONG_MIN := by
    have : (0 : Int) ≤ (decimalValue (d :: ds') : Int) := Int.ofNat_nonneg _
    unfold LONG_MIN; omega
  unfold IStringStream.extractLong
  simp only [IStringStream.good, Bool.not_false, Bool.and_self, if_true]
  rw [hskip]
  simp only [if_neg (isDigit_not_sign d hd0), htake, hdrop, if_neg hminus, List.isEmpty_cons,
    Bool.false_eq_true, if_false, if_neg hnotmax, if_neg hnotmin]

/-- On the text after the name of a well-formed record - eleven blank-free fields, then the
two tick counts as decimal numbers in the range of `long`, each followed by a blank - the
value computed for `cpuUsage` is the `long` quotient of their `long` sum by the clock
ticks, converted to `double`. -/
theorem statCpu_of_fields (clkTck utime0 stime0 : Int) (fs : List (List Char))
    (ut st tl : List Char) (hfs : fs.length = 11) (hf : ∀ f ∈ fs, ' ' ∉ f ∧ f.length < 256)
    (hut : ut ≠ []) (hutd : ∀ c ∈ ut, c.isDigit = true)
    (hutr : (decimalValue ut : Int) ≤ LONG_MAX)
    (hst : st ≠ []) (hstd : ∀ c ∈ st, c.isDigit = true)
    (hstr : (decimalValue st : Int) ≤ LONG_MAX) :
    statCpu clkTck utime0 stime0 (joinFields fs (ut ++ ' ' :: (st ++ ' ' :: tl))) =
      longToDouble (wrapLong (Int.tdiv
        (wrapLong ((decimalValue ut : Int) + (decimalValue st : Int))) clkTck)) := by
  have h1 := ignoreFields_joinFields fs (ut ++ ' ' :: (st ++ ' ' :: tl)) hf
  rw [hfs] at h1
  have h2 := extractLong_number ut (st ++ ' ' :: tl) utime0 false hut hutd hutr
  have h3 := extractLong_number st tl stime0 true hst hstd hstr
  simp only [Bool.false_eq_true, if_false, List.nil_append] at h2
  simp only [if_true, List.singleton_append] at h3
  unfold statCpu
  simp only [h1, h2, h3]

/-- For a tick sum below `2^53` and a positive number of clock ticks, nothing wraps and
nothing is rounded: the value assigned to `cpuUsage` is the truncated quotient. -/
theorem cpu_value_of_small (x clkTck : Int) (h0 : 0 ≤ x) (hx : x < 9007199254740992)
    (hT : 0 < clkTck) :
    longToDouble (wrapLong (Int.tdiv (wrapLong x) clkTck)) = Int.tdiv x clkTck := by
  have hw : wrapLong x = x := by unfold wrapLong; omega
  have hq0 : 0 ≤ Int.tdiv x clkTck := by
    rw [Int.tdiv_eq_ediv h0 (le_of_lt hT)]; exact Int.ediv_nonneg h0 (le_of_lt hT)
  have hqx : Int.tdiv x clkTck ≤ x := by
    rw [Int.tdiv_eq_ediv h0 (le_of_lt hT)]; exact Int.ediv_le_self _ h0
  have hw2 : wrapLong (Int.tdiv x clkTck) = Int.tdiv x clkTck := by unfold wrapLong; omega
  rw [hw, hw2]
  unfold longToDouble
  rw [if_neg (not_lt.2 hq0)]
  have hlt : (Int.tdiv x clkTck).natAbs < 2 ^ 53 := by
    have e53 : (2 : Nat) ^ 53 = 9007199254740992 := by norm_num
    rw [e53]; omega
  rw [roundToDouble_of_lt _ hlt]
  omega

/-- On a well-formed record whose name holds no `)` - the name in parentheses, a blank,
eleven blank-free fields, then `utime` and `stime` as decimal numbers in the range of
`long` - the step stores the whole name and the `long` quotient of the `long` sum
`utime + stime` by the clock ticks, converted to `double`. -/
theorem statStep_well_formed (clkTck utime0 stime0 : Int) (name0 pre comm : List Char)
    (fs : List (List Char)) (ut st tl : List Char)
    (hopen : '(' ∉ pre) (hclose : ')' ∉ pre) (hcomm : ')' ∉ comm)
    (hfs : fs.length = 11) (hf : ∀ f ∈ fs, ' ' ∉ f ∧ f.length < 256)
    (hut : ut ≠ []) (hutd : ∀ c ∈ ut, c.isDigit = true)
    (hutr : (decimalValue ut : Int) ≤ LONG_MAX)
    (hst : st ≠ []) (hstd : ∀ c ∈ st, c.isDigit = true)
    (hstr : (decimalValue st : Int) ≤ LONG_MAX)
    (hlen : (pre ++ '(' :: (comm ++ ')' :: ' ' ::
      joinFields fs (ut ++ ' ' :: (st ++ ' ' :: tl)))).length + 2 < sizeModulus) :
    statStep clkTck utime0 stime0 name0
      (pre ++ '(' :: (comm ++ ')' :: ' ' :: joinFields fs (ut ++ ' ' :: (st ++ ' ' :: tl)))) =
      Except.ok (comm, longToDouble (wrapLong (Int.tdiv
        (wrapLong ((decimalValue ut : Int) + (decimalValue st : Int))) clkTck))) := by
  rw [statStep_of_no_close_paren clkTck utime0 stime0 name0 pre comm _ hopen hclose hcomm
    (List.cons_ne_nil _ _) hlen]
  rw [List.drop_one, List.tail_cons,
    statCpu_of_fields clkTck utime0 stime0 fs ut st tl hfs hf hut hutd hutr hst hstd hstr]

/-- The well-formed case at a concrete record: name `my proc`, `utime = 300`,
`stime = 200`, 100 clock ticks per second. -/
theorem statStep_well_formed_example :
    statStep 100 0 0 []
      ("7 ".data ++ '(' :: ("my proc".data ++ ')' :: ' ' ::
        joinFields ["S".data, "1".data, "7".data, "7".data, "0".data, "-1".data,
          "4194304".data, "120".data, "0".data, "5".data, "0".data]
          ("300".data ++ ' ' :: ("200".data ++ ' ' :: "0 0 20".data)))) =
      Except.ok ("my proc".data, 5) :=
  statStep_well_formed 100 0 0 [] "7 ".data "my proc".data
    ["S".data, "1".data, "7".data, "7".data, "0".data, "-1".data,
      "4194304".data, "120".data, "0".data, "5".data, "0".data]
    "300".data "200".data "0 0 20".data
    (by decide) (by decide) (by decide) (by decide) (by decide) (by decide) (by decide)
    (by decide) (by decide) (by decide) (by decide) (by decide)

/-! ## Stat records: name and CPU time -/

/-- On a record whose name holds no `)`, the step stores the whole name and the sum of
fields 14 and 15 over the clock ticks. -/
theorem statStep_plain (utime0 stime0 : Int) (name0 : List Char) :
    statStep 100 utime0 stime0 name0 statLinePlain = Except.ok ("my proc".data, 5) ∧
    commField statLinePlain = "my proc".data ∧ cpuSeconds 100 statLinePlain = 5 := by
  refine ⟨rfl, by decide, by decide!⟩

/-- The quotient stored in `cpuUsage` is the `long` quotient: 150 ticks at 100 ticks per
second are stored as 1, where the record gives 3/2 seconds. -/
theorem statStep_truncates (utime0 stime0 : Int) (name0 : List Char) :
    statStep 100 utime0 stime0 name0 statLineTicks = Except.ok ("my proc".data, 1) ∧
    cpuSeconds 100 statLineTicks = 3 / 2 := by
  refine ⟨rfl, by decide!⟩

/-- C8, at the failing input.  For the stat record `7 (a) b) S 1 ...` of a process named
`a) b`, the text between the first `(` and the last `)` is `a) b`, and the step stores
the name `a`: it stops at the first `)`. -/
theorem name_ends_at_first_close_paren (clkTck utime0 stime0 : Int) (name0 : List Char) :
    (statStep clkTck utime0 stime0 name0 statLineParen).map Prod.fst = Except.ok "a".data ∧
    commField statLineParen = "a) b".data := by
  refine ⟨rfl, by decide⟩

/-- C9, at the failing input.  For the stat record `7 (a) b) S 1 ...` with `utime = 300`
and `stime = 200` in fields 14 and 15 and 100 clock ticks per second, the record gives
5 seconds, and the step stores 3: it counts the fields from the first `)`, so it adds
fields 13 and 14. -/
theorem cpu_fields_counted_from_first_close_paren (utime0 stime0 : Int) (name0 : List Char) :
    (statStep 100 utime0 stime0 name0 statLineParen).map Prod.snd = Except.ok 3 ∧
    cpuSeconds 100 statLineParen = 5 := by
  refine ⟨rfl, by decide!⟩

/-- C10, at the failing inputs.  On the empty line, and on a line that ends at its
first `)`, the step throws `std::out_of_range` from `line.substr(end + 2)`, whatever the
clock ticks and the prior values are. -/
theorem stat_step_throws (clkTck utime0 stime0 : Int) (name0 : List Char) :
    statStep clkTck utime0 stime0 name0 [] = Except.error Exception.outOfRange ∧
    statStep clkTck utime0 stime0 name0 "7 (a)".data = Except.error Exception.outOfRange := by
  exact ⟨rfl, rfl⟩

end Monitor
